import Mathlib

/-!
Verification of the campaigns resolver core of sourcegraph: the diff engine
(pagination, memoization, patch application), the access filter for
changeset listings and diff-stat aggregation, and the changeset resolver
dispatch.  Definitions are shallow embeddings of the Go source in
`enterprise/internal/campaigns/resolvers`.
-/

namespace Campaigns

/-! ### Go string helpers

Go `strings.Split(s, "\n")`, `strings.Join(xs, "\n")`, `strings.HasPrefix`
and one-byte slicing, embedded over `List Char` so that everything reduces
in the kernel. -/

/-- `strings.Split(s, "\n")`: split on each newline; the empty string
yields one empty field. -/
def splitLinesAux : List Char → List Char → List String
  | [], acc => [String.mk acc.reverse]
  | c :: rest, acc =>
    if c = '\n' then String.mk acc.reverse :: splitLinesAux rest []
    else splitLinesAux rest (c :: acc)

def splitLines (s : String) : List String := splitLinesAux s.toList []

/-- `strings.Join(xs, "\n")`. -/
def joinNl : List String → String
  | [] => ""
  | [x] => x
  | x :: y :: xs => x ++ "\n" ++ joinNl (y :: xs)

/-- `strings.HasPrefix(line, "-")`: the first character is `-`. -/
def startsWithDash (line : String) : Bool :=
  decide (line.toList.head? = some '-')

/-- `strings.HasPrefix(line, "+")`: the first character is `+`. -/
def startsWithPlus (line : String) : Bool :=
  decide (line.toList.head? = some '+')

/-- Go `line[1:]` for a line whose first byte is ASCII. -/
def dropOne (line : String) : String := String.mk (line.toList.drop 1)

/-! ### Go `strconv.ParseInt(s, 0, 32)`

Embedded from Go's `strconv` (base-0 prefix detection, legacy octal,
underscore rules, 32-bit range checks).  The resolver treats any error as
a single failure case, so the embedding returns `Option Int`: `none` for
both syntax and range errors. -/

/-- Go strconv's `lower(c) = c | ('x' - 'X')`. -/
def goLower (c : Char) : Char := Char.ofNat (c.toNat ||| 32)

/-- Digit value of a character as in Go's ParseUint loop. -/
def digitVal (c : Char) : Option Nat :=
  if '0' ≤ c ∧ c ≤ '9' then some (c.toNat - '0'.toNat)
  else if 'a' ≤ goLower c ∧ goLower c ≤ 'z' then some ((goLower c).toNat - 'a'.toNat + 10)
  else none

/-- The scanning loop of Go strconv's `underscoreOK`; `saw` is the kind of
the previously seen character (`'^'` start, `'0'` digit, `'_'`, `'!'` other). -/
def underscoreOKLoop (hex : Bool) : List Char → Char → Bool
  | [], saw => saw ≠ '_'
  | c :: rest, saw =>
    if ('0' ≤ c ∧ c ≤ '9') ∨ (hex ∧ 'a' ≤ goLower c ∧ goLower c ≤ 'f') then
      underscoreOKLoop hex rest '0'
    else if c = '_' then
      if saw ≠ '0' then false else underscoreOKLoop hex rest '_'
    else underscoreOKLoop hex rest '!'

/-- Go strconv's `underscoreOK`: underscores only between a base prefix and
a digit or between successive digits. -/
def underscoreOK (s : List Char) : Bool :=
  let s1 :=
    match s with
    | c :: rest => if c = '-' ∨ c = '+' then rest else s
    | [] => []
  match s1 with
  | '0' :: c :: rest =>
    if goLower c = 'b' ∨ goLower c = 'o' ∨ goLower c = 'x' then
      underscoreOKLoop (goLower c = 'x') rest '0'
    else underscoreOKLoop false s1 '^'
  | _ => underscoreOKLoop false s1 '^'

/-- Base detection of Go `ParseUint` with base argument 0 on the
sign-stripped input: `0b`/`0o`/`0x` prefixes with at least one digit
position after them, otherwise a leading `0` selects legacy octal. -/
def splitBase (s : List Char) : Nat × List Char :=
  match s with
  | '0' :: c :: rest =>
    if 1 ≤ rest.length ∧ goLower c = 'b' then (2, rest)
    else if 1 ≤ rest.length ∧ goLower c = 'o' then (8, rest)
    else if 1 ≤ rest.length ∧ goLower c = 'x' then (16, rest)
    else (8, c :: rest)
  | '0' :: [] => (8, [])
  | _ => (10, s)

/-- The digit-consumption loop of Go `ParseUint` (base argument 0, bit
size 32): underscores are skipped here and validated afterwards; any
value exceeding `2^32 - 1` is a range error. -/
def parseUintDigits (base : Nat) : List Char → Nat → Bool → Option (Nat × Bool)
  | [], n, us => some (n, us)
  | c :: rest, n, us =>
    if c = '_' then parseUintDigits base rest n true
    else
      match digitVal c with
      | none => none
      | some d =>
        if base ≤ d then none
        else
          let n1 := n * base + d
          if 2 ^ 32 - 1 < n1 then none else parseUintDigits base rest n1 us

/-- Go `strconv.ParseUint(s, 0, 32)` on the sign-stripped input, errors
collapsed to `none`. -/
def parseUintBase0 (s : List Char) : Option Nat :=
  match s with
  | [] => none
  | _ :: _ =>
    let p := splitBase s
    match parseUintDigits p.1 p.2 0 false with
    | none => none
    | some (n, us) => if us ∧ ¬ underscoreOK s then none else some n

/-- Go `strconv.ParseInt(s, 0, 32)`: optional sign, base-0 magnitude,
signed 32-bit range check; errors collapsed to `none`. -/
def parseGoInt32 (s : String) : Option Int :=
  match s.toList with
  | [] => none
  | c :: rest =>
    let p : Bool × List Char :=
      if c = '+' then (false, rest)
      else if c = '-' then (true, rest)
      else (false, c :: rest)
    match parseUintBase0 p.2 with
    | none => none
    | some un =>
      if ¬ p.1 ∧ 2 ^ 31 ≤ un then none
      else if p.1 ∧ 2 ^ 31 < un then none
      else some (if p.1 then -(un : Int) else (un : Int))

example : parseGoInt32 "0" = some 0 := by decide
example : parseGoInt32 "-5" = some (-5) := by decide
example : parseGoInt32 "17" = some 17 := by decide
example : parseGoInt32 "0x10" = some 16 := by decide
example : parseGoInt32 "010" = some 8 := by decide
example : parseGoInt32 "abc" = none := by decide
example : parseGoInt32 "" = none := by decide
example : parseGoInt32 "1_0" = some 10 := by decide
example : parseGoInt32 "_1" = none := by decide
example : parseGoInt32 "2147483647" = some 2147483647 := by decide
example : parseGoInt32 "2147483648" = none := by decide
example : parseGoInt32 "-2147483648" = some (-2147483648) := by decide

/-! ### Diff engine data model

`diff.FileDiff` with its hunks (from `sourcegraph/go-diff`), as far as the
resolvers consume it: `applyPatch` reads `Hunks[i].OrigStartLine` and
`Hunks[i].Body`; the pagination loop treats parsed file diffs as opaque
records. -/

structure Hunk where
  origStartLine : Int
  body : String
deriving DecidableEq

structure FileDiff where
  origName : String
  newName : String
  hunks : List Hunk
deriving DecidableEq

/-- The multi-file diff blob of a patch as seen through
`diff.NewMultiFileDiffReader(...).ReadFile()`: a stream of parsed file-diff
records, terminated either by `io.EOF` (`terminalErr = none`) or by a parse
error (`terminalErr = some e`). -/
structure DiffStream where
  records : List FileDiff
  terminalErr : Option String
deriving DecidableEq

/-- Signed 32-bit wraparound, for Go `int32` addition. -/
def wrap32 (x : Int) : Int := (x + 2 ^ 31) % 2 ^ 32 - 2 ^ 31

/-- The `for { fileDiff, err = dr.ReadFile() ... }` loop of
`fileDiffConnectionCompute`: consume records until `len(fileDiffs)`
equals `totalAmount`, then read exactly one more record to decide
`hasNextPage`.  Returns `(fileDiffs, hasNextPage, err, reads)` where
`reads` counts the `ReadFile` calls performed. -/
def readLoop : List FileDiff → Option String → Int → List FileDiff →
    List FileDiff × Bool × Option String × Nat
  | [], terminal, _, acc =>
    match terminal with
    | none => (acc, false, none, 1)
    | some e => (acc, false, some e, 1)
  | r :: rest, terminal, total, acc =>
    let acc1 := acc ++ [r]
    if (acc1.length : Int) = total then
      match rest, terminal with
      | [], none => (acc1, false, none, 2)
      | [], some e => (acc1, false, some e, 2)
      | _ :: _, _ => (acc1, true, none, 2)
    else
      let res := readLoop rest terminal total acc1
      (res.1, res.2.1, res.2.2.1, res.2.2.2 + 1)

/-- The parse-and-paginate computation for a fixed `totalAmount`. -/
def computeCore (stream : DiffStream) (totalAmount : Int) :
    List FileDiff × Bool × Option String × Nat :=
  readLoop stream.records stream.terminalErr totalAmount []

/-- `graphqlbackend.FileDiffsConnectionArgs`. -/
structure FileDiffsConnectionArgs where
  first : Option Int
  after : Option String
deriving DecidableEq

/-- The quadruple returned by the closure of `fileDiffConnectionCompute`. -/
structure ComputeResult where
  fileDiffs : List FileDiff
  afterIdx : Int
  hasNextPage : Bool
  err : Option String
deriving DecidableEq

/-- The body of the `once.Do` block after the cursor has been resolved to
`afterIdx`: `totalAmount := afterIdx; if args.First != nil { totalAmount
+= *args.First }` (32-bit addition), then the read loop. -/
def mkRes (stream : DiffStream) (args : FileDiffsConnectionArgs) (afterIdx : Int) :
    ComputeResult :=
  let total := wrap32 (afterIdx + args.first.getD 0)
  let res := computeCore stream total
  ⟨res.1, afterIdx, res.2.1, res.2.2.1⟩

/-- One execution of the `once.Do` body of `fileDiffConnectionCompute`.
When `args.After` is present, `strconv.ParseInt(*args.After, 0, 32)` is
called with its error assigned to a variable that shadows the captured
`err`; on a parse failure the body returns early, leaving every captured
variable at its zero value.  A negative parsed index is clamped to zero. -/
def computeOnce (stream : DiffStream) (args : FileDiffsConnectionArgs) : ComputeResult :=
  match args.after with
  | some s =>
    match parseGoInt32 s with
    | none => ⟨[], 0, false, none⟩
    | some k =>
      let afterIdx := if k < 0 then 0 else k
      mkRes stream args afterIdx
  | none => mkRes stream args 0

/-- One call of the closure returned by `fileDiffConnectionCompute`: the
`sync.Once` guard runs the computation only when no outcome is stored yet.
Returns the result, the updated memo cell, and whether this call performed
the computation. -/
def memoStep (stream : DiffStream) (memo : Option ComputeResult)
    (args : FileDiffsConnectionArgs) : ComputeResult × Option ComputeResult × Bool :=
  match memo with
  | some r => (r, some r, false)
  | none => (computeOnce stream args, some (computeOnce stream args), true)

/-- A sequence of calls to the closure, threading the memo cell; also
counts how many of the calls ran the computation. -/
def runCalls (stream : DiffStream) : Option ComputeResult →
    List FileDiffsConnectionArgs → List ComputeResult × Nat
  | _, [] => ([], 0)
  | memo, a :: as =>
    let step := memoStep stream memo a
    let rest := runCalls stream step.2.1 as
    (step.1 :: rest.1, (if step.2.2 then 1 else 0) + rest.2)

/-! ### Patch application (`applyPatch`) -/

/-- Go indexing `xs[i]` on a slice, `none` when out of bounds. -/
def goIndex (xs : List String) (i : Int) : Option String :=
  if 0 ≤ i then xs.get? i.toNat else none

/-- Go slicing `xs[a:b]`, `none` when `¬ (0 ≤ a ≤ b ≤ len xs)`. -/
def goSlice (xs : List String) (a b : Int) : Option (List String) :=
  if 0 ≤ a ∧ a ≤ b ∧ b ≤ (xs.length : Int) then
    some ((xs.drop a.toNat).take (b - a).toNat)
  else none

/-- The inner `for _, line := range hunkLines` loop of `applyPatch`:
empty lines are skipped, a `-` line advances the original-line cursor,
a `+` line emits its content, any other line emits the original line at
the cursor (out-of-bounds access is `none`) and advances the cursor. -/
def processHunkLines (cl : List String) : List String → Int → List String →
    Option (List String × Int)
  | [], lastLine, acc => some (acc, lastLine)
  | line :: rest, lastLine, acc =>
    if line = "" then processHunkLines cl rest lastLine acc
    else if startsWithDash line then processHunkLines cl rest (lastLine + 1) acc
    else if startsWithPlus line then
      processHunkLines cl rest lastLine (acc ++ [dropOne line])
    else
      match goIndex cl (lastLine - 1) with
      | none => none
      | some l => processHunkLines cl rest (lastLine + 1) (acc ++ [l])

/-- The outer `for _, hunk := range fileDiff.Hunks` loop of `applyPatch`:
copy the hole before the hunk verbatim, then run the hunk body. -/
def processHunks (cl : List String) : List Hunk → Int → List String →
    Option (List String × Int)
  | [], lastLine, acc => some (acc, lastLine)
  | h :: hs, lastLine, acc =>
    let holeStep : Option (List String × Int) :=
      if h.origStartLine ≠ 0 ∧ h.origStartLine ≠ lastLine then
        match goSlice cl (lastLine - 1) (h.origStartLine - 1) with
        | none => none
        | some originalLines =>
          some (acc ++ originalLines, lastLine + originalLines.length)
      else some (acc, lastLine)
    match holeStep with
    | none => none
    | some s =>
      match processHunkLines cl (splitLines h.body) s.2 s.1 with
      | none => none
      | some t => processHunks cl hs t.2 t.1

/-- `applyPatch(fileContent, fileDiff)`: split the base content into
lines, walk the hunks, then append the remaining original lines. -/
def applyPatch (fileContent : String) (fileDiff : FileDiff) : Option String :=
  let cl := splitLines fileContent
  match processHunks cl fileDiff.hunks 1 [] with
  | none => none
  | some r =>
    if (cl.length : Int) > 0 ∧ (cl.length : Int) ≠ r.2 then
      match goSlice cl (r.2 - 1) cl.length with
      | none => none
      | some rest => some (joinNl (r.1 ++ rest))
    else some (joinNl r.1)

/-! ### Pagination protocol (client-side iteration, for the
page-concatenation property) -/

/-- Which hunk-body lines advance the original-line cursor: the nonempty
lines that are not additions (`-` lines and context lines). -/
def advancesLine (line : String) : Bool :=
  line ≠ "" ∧ startsWithPlus line = false

/-- Number of cursor advances performed by a list of hunk-body lines. -/
def advancesCount (lines : List String) : Nat :=
  (lines.filter advancesLine).length

/-- Number of original lines a hunk body touches. -/
def touched (body : String) : Nat := advancesCount (splitLines body)

/-- Well-formedness of a hunk list against a base file of `n` lines,
starting from cursor `lastLine`: hunks are in ascending original-line
order with positive start lines, and every original line a hunk touches
exists in the base. -/
def hunksWF (n : Nat) : Int → List Hunk → Bool
  | _, [] => true
  | lastLine, h :: hs =>
    1 ≤ h.origStartLine ∧ lastLine ≤ h.origStartLine ∧
      h.origStartLine + touched h.body ≤ (n : Int) + 1 ∧
      hunksWF n (h.origStartLine + touched h.body) hs

/-- Modelled from the spec: the file-diff connection resolver serves the
window `[cursor, cursor+limit)` of the memoized record prefix and, while
`hasNextPage` holds, advances the cursor by the page size to request the
next window.  `fuel` bounds the number of pages. -/
def collectPages (stream : DiffStream) (N : Nat) : Nat → Nat → List FileDiff
  | _, 0 => []
  | c, fuel + 1 =>
    let r := mkRes stream ⟨some (N : Int), none⟩ (c : Int)
    let page := r.fileDiffs.drop c
    if r.hasNextPage then page ++ collectPages stream N (c + N) fuel
    else page

/-! ### Changeset listing filter (`listChangesetOptsFromArgs`) -/

/-- Modelled from the spec: `campaigns.ChangesetState.Valid()` — the
lifecycle state is a host-defined string validated against the fixed set
open/closed/merged/deleted.  (The `internal/campaigns` types are not part
of this excerpt.) -/
def changesetStateValid (s : String) : Bool :=
  s = "OPEN" ∨ s = "CLOSED" ∨ s = "MERGED" ∨ s = "DELETED"

/-- Modelled from the spec: `campaigns.ChangesetReviewState.Valid()` — a
fixed enum of review states. -/
def changesetReviewStateValid (s : String) : Bool :=
  s = "APPROVED" ∨ s = "CHANGES_REQUESTED" ∨ s = "PENDING" ∨
    s = "COMMENTED" ∨ s = "DISMISSED"

/-- Modelled from the spec: `campaigns.ChangesetCheckState.Valid()` — a
fixed enum of check states. -/
def changesetCheckStateValid (s : String) : Bool :=
  s = "PENDING" ∨ s = "PASSED" ∨ s = "FAILED"

/-- `graphqlbackend.ListChangesetsArgs`. -/
structure ListChangesetsArgs where
  first : Option Int
  state : Option String
  reviewState : Option String
  checkState : Option String
deriving DecidableEq

/-- `ee.ListChangesetsOpts`, as far as the resolver fills it in. -/
structure ListChangesetsOpts where
  limit : Int := 0
  externalState : Option String := none
  externalReviewState : Option String := none
  externalCheckState : Option String := none
deriving DecidableEq

/-- The `args.CheckState` block of `listChangesetOptsFromArgs`. -/
def listChangesetOptsCheck (a : ListChangesetsArgs) (opts : ListChangesetsOpts)
    (safe : Bool) : ListChangesetsOpts × Bool × Option String :=
  match a.checkState with
  | some s =>
    if changesetCheckStateValid s = false then
      (opts, false, some "changeset check state not valid")
    else
      ({ opts with externalCheckState := some s }, false, none)
  | none => (opts, safe, none)

/-- The `args.ReviewState` block of `listChangesetOptsFromArgs`. -/
def listChangesetOptsReview (a : ListChangesetsArgs) (opts : ListChangesetsOpts)
    (safe : Bool) : ListChangesetsOpts × Bool × Option String :=
  match a.reviewState with
  | some s =>
    if changesetReviewStateValid s = false then
      (opts, false, some "changeset review state not valid")
    else
      listChangesetOptsCheck a { opts with externalReviewState := some s } false
  | none => listChangesetOptsCheck a opts safe

/-- `listChangesetOptsFromArgs`: turn the GraphQL args into store options;
the second component is `optsSafe`, the third the error. -/
def listChangesetOptsFromArgs (args : Option ListChangesetsArgs) :
    ListChangesetsOpts × Bool × Option String :=
  match args with
  | none => ({}, true, none)
  | some a =>
    let opts0 : ListChangesetsOpts :=
      { limit := a.first.getD 0 }
    match a.state with
    | some s =>
      if changesetStateValid s = false then
        (opts0, false, some "changeset state not valid")
      else
        listChangesetOptsReview a { opts0 with externalState := some s } true
    | none => listChangesetOptsReview a opts0 true

/-! ### Diff-stat aggregation (`patchSetDiffStat`) -/

/-- `graphqlbackend.DiffStat` with its `AddStat` combination rule. -/
structure DiffStat where
  added : Int
  changed : Int
  deleted : Int
deriving DecidableEq

def DiffStat.addStat (t s : DiffStat) : DiffStat :=
  ⟨t.added + s.added, t.changed + s.changed, t.deleted + s.deleted⟩

/-- `campaigns.Patch`, as far as `patchSetDiffStat` consumes it:
identity, repository, and the optional precomputed diff stat
(`p.DiffStat()` returning `(stat, ok)`). -/
structure Patch where
  id : Int
  repoID : Int
  diffStat : Option DiffStat
deriving DecidableEq

/-- The accumulation loop of `patchSetDiffStat`: skip patches whose
repository is not in the accessible set; fail on a visible patch without
a precomputed diff stat. -/
def sumDiffStats (accessible : List Int) : List Patch → DiffStat →
    Except String DiffStat
  | [], total => .ok total
  | p :: ps, total =>
    if p.repoID ∈ accessible then
      match p.diffStat with
      | none => .error ("patch " ++ toString p.id ++ " has no diff stat")
      | some s => sumDiffStats accessible ps (total.addStat s)
    else sumDiffStats accessible ps total

/-- `patchSetDiffStat`, over the patch list returned by the store and the
caller-visible repository set produced by `db.Repos.GetByIDs`. -/
def patchSetDiffStat (patches : List Patch) (accessible : List Int) :
    Except String DiffStat :=
  sumDiffStats accessible patches ⟨0, 0, 0⟩

/-- The sum of the precomputed diff stats of the visible patches. -/
def visibleSum (patches : List Patch) (accessible : List Int) : DiffStat :=
  (((patches.filter fun p => p.repoID ∈ accessible).filterMap
      fun p => p.diffStat).foldl DiffStat.addStat ⟨0, 0, 0⟩)

/-! ### Changeset resolver dispatch (`ChangesetByID`, `SyncChangeset`) -/

/-- Modelled from the spec: a relay-style GraphQL identifier is an opaque
token encoding an entity-kind tag plus a synthetic integer identity;
decoding rejects malformed tokens and tokens whose kind tag does not match
the expected entity. -/
inductive GraphQLID where
  | wellFormed (kind : String) (value : Int)
  | malformed (raw : String)
deriving DecidableEq

/-- Modelled from the spec: `unmarshalChangesetID`, rejecting malformed
tokens and non-`Changeset` kind tags with a validation error. -/
def unmarshalChangesetID : GraphQLID → Except String Int
  | .wellFormed kind v =>
    if kind = "Changeset" then .ok v
    else .error ("expected a Changeset id, got " ++ kind)
  | .malformed raw => .error ("malformed id " ++ raw)

/-- `ErrIDIsZero = errors.New("invalid node id")`. -/
def errIDIsZero : String := "invalid node id"

/-- `SyncChangeset`: unmarshal the id, reject zero ids, then enqueue.
The second component records which changeset ids were handed to
`EnqueueChangesetSync`; the first is `(*EmptyResponse, error)` with the
response modelled as `Unit`. -/
def syncChangeset (arg : GraphQLID) (enqueue : Int → Except String Unit) :
    Except String Unit × List Int :=
  match unmarshalChangesetID arg with
  | .error e => (.error e, [])
  | .ok cid =>
    if cid = 0 then (.error errIDIsZero, [])
    else
      match enqueue cid with
      | .error e => (.error e, [cid])
      | .ok _ => (.ok (), [cid])

/-- `campaigns.Changeset`, as far as the resolver dispatch consumes it. -/
structure Changeset where
  id : Int
  repoID : Int
  createdAt : Int
  updatedAt : Int
  state : String
  title : String
  body : String
deriving DecidableEq

structure Repo where
  id : Int
  name : String
deriving DecidableEq

/-- Outcome of `r.store.GetChangeset`: a changeset, the `ee.ErrNoResults`
sentinel, or a transport error. -/
inductive GetChangesetResult where
  | found (c : Changeset)
  | noResults
  | storeErr (e : String)
deriving DecidableEq

/-- Outcome of `db.Repos.Get` (authz-filtered): a repository, a not-found
error (`errcode.IsNotFound`), or another error. -/
inductive GetRepoResult where
  | found (r : Repo)
  | notFound
  | repoErr (e : String)
deriving DecidableEq

/-- The two presentation variants behind the `ChangesetResolver`
interface: `hiddenChangesetResolver` exposes only the fields common to
all changesets (identity, timestamps, state); `changesetResolver` carries
the changeset together with its preloaded repository. -/
inductive ChangesetNode where
  | hidden (id createdAt updatedAt : Int) (state : String)
  | full (c : Changeset) (repo : Repo)
deriving DecidableEq

/-- `(*Resolver).ChangesetByID`: read-access gate, id unmarshalling, the
zero-id and no-results empty outcomes, and the hidden/full dispatch on
repository visibility. -/
def changesetByID (readAccessOK : Bool) (arg : GraphQLID)
    (getChangeset : Int → GetChangesetResult) (getRepo : Int → GetRepoResult) :
    Except String (Option ChangesetNode) :=
  if readAccessOK = false then .error "must be site admin"
  else
    match unmarshalChangesetID arg with
    | .error e => .error e
    | .ok cid =>
      if cid = 0 then .ok none
      else
        match getChangeset cid with
        | .noResults => .ok none
        | .storeErr e => .error e
        | .found c =>
          match getRepo c.repoID with
          | .notFound => .ok (some (.hidden c.id c.createdAt c.updatedAt c.state))
          | .repoErr e => .error e
          | .found repo => .ok (some (.full c repo))

/-! ### Concrete example inputs -/

/-- A twelve-line base file whose lines are their own numbers. -/
def base12 : String := "1\n2\n3\n4\n5\n6\n7\n8\n9\n10\n11\n12"

/-- A file diff with two hunks: the first replaces line 3, the second
touches lines 11 and 12 and appends one line after them. -/
def exampleDiff : FileDiff :=
  ⟨"f", "f", [⟨3, "-3\n+three"⟩, ⟨11, "11\n12\n+appended"⟩]⟩

/-- The expected result of applying `exampleDiff` to `base12`. -/
def expected12 : String := "1\n2\nthree\n4\n5\n6\n7\n8\n9\n10\n11\n12\nappended"

/-! ### Lemmas about the changeset listing filter -/

lemma optsCheck_unsafe (a : ListChangesetsArgs) (opts : ListChangesetsOpts) :
    (listChangesetOptsCheck a opts false).2.1 = false := by
  unfold listChangesetOptsCheck
  cases a.checkState with
  | none => rfl
  | some s => dsimp only; split <;> rfl

lemma optsCheck_some_unsafe (a : ListChangesetsArgs) (opts : ListChangesetsOpts)
    (safe : Bool) (h : a.checkState ≠ none) :
    (listChangesetOptsCheck a opts safe).2.1 = false := by
  unfold listChangesetOptsCheck
  cases hcs : a.checkState with
  | none => exact absurd hcs h
  | some s => dsimp only; split <;> rfl

lemma optsReview_unsafe (a : ListChangesetsArgs) (opts : ListChangesetsOpts) :
    (listChangesetOptsReview a opts false).2.1 = false := by
  unfold listChangesetOptsReview
  cases a.reviewState with
  | none => exact optsCheck_unsafe a opts
  | some s =>
    dsimp only
    split
    · rfl
    · exact optsCheck_unsafe a _

lemma optsReview_some_unsafe (a : ListChangesetsArgs) (opts : ListChangesetsOpts)
    (safe : Bool) (h : a.reviewState ≠ none) :
    (listChangesetOptsReview a opts safe).2.1 = false := by
  unfold listChangesetOptsReview
  cases hrs : a.reviewState with
  | none => exact absurd hrs h
  | some s =>
    dsimp only
    split
    · rfl
    · exact optsCheck_unsafe a _

lemma optsCheck_none (a : ListChangesetsArgs) (opts : ListChangesetsOpts)
    (safe : Bool) (h : a.checkState = none) :
    listChangesetOptsCheck a opts safe = (opts, safe, none) := by
  unfold listChangesetOptsCheck
  rw [h]

lemma optsReview_none (a : ListChangesetsArgs) (opts : ListChangesetsOpts)
    (safe : Bool) (hr : a.reviewState = none) (hc : a.checkState = none) :
    listChangesetOptsReview a opts safe = (opts, safe, none) := by
  unfold listChangesetOptsReview
  rw [hr]
  exact optsCheck_none a opts safe hc

lemma optsCheck_err_or_none (a : ListChangesetsArgs) (opts : ListChangesetsOpts)
    (safe : Bool) (s : String) (h : a.checkState = some s)
    (hv : changesetCheckStateValid s = false) :
    (listChangesetOptsCheck a opts safe).2.1 = false ∧
      ∃ e, (listChangesetOptsCheck a opts safe).2.2 = some e := by
  unfold listChangesetOptsCheck
  rw [h]
  simp [hv]

lemma optsReview_err_check (a : ListChangesetsArgs) (opts : ListChangesetsOpts)
    (safe : Bool) (s : String) (h : a.checkState = some s)
    (hv : changesetCheckStateValid s = false) :
    (listChangesetOptsReview a opts safe).2.1 = false ∧
      ∃ e, (listChangesetOptsReview a opts safe).2.2 = some e := by
  unfold listChangesetOptsReview
  cases a.reviewState with
  | none => exact optsCheck_err_or_none a opts safe s h hv
  | some r =>
    dsimp only
    split
    · exact ⟨rfl, _, rfl⟩
    · exact optsCheck_err_or_none a _ false s h hv

lemma optsReview_err_any (a : ListChangesetsArgs) (opts : ListChangesetsOpts)
    (safe : Bool)
    (h : (∃ s, a.reviewState = some s ∧ changesetReviewStateValid s = false) ∨
         (∃ s, a.checkState = some s ∧ changesetCheckStateValid s = false)) :
    (listChangesetOptsReview a opts safe).2.1 = false ∧
      ∃ e, (listChangesetOptsReview a opts safe).2.2 = some e := by
  rcases h with ⟨s, hs, hv⟩ | ⟨s, hs, hv⟩
  · unfold listChangesetOptsReview
    rw [hs]
    dsimp only
    rw [hv]
    exact ⟨rfl, _, rfl⟩
  · exact optsReview_err_check a opts safe s hs hv

/-- C1: `listChangesetOptsFromArgs` returns `optsSafe = false` whenever a
`ReviewState` or `CheckState` filter is present, returns `optsSafe = true`
(and no error) when the filter uses only a valid `State` or no filter at
all (including nil args), and returns a validation error together with
`optsSafe = false` whenever any of `State`, `ReviewState`, `CheckState`
falls outside its fixed valid enum set. -/
theorem c1_listChangesetOpts_filter_safety
    (a2 a3 a4 : ListChangesetsArgs)
    (h2 : a2.reviewState ≠ none ∨ a2.checkState ≠ none)
    (h3r : a3.reviewState = none) (h3c : a3.checkState = none)
    (h3s : a3.state = none ∨ ∃ s, a3.state = some s ∧ changesetStateValid s = true)
    (h4 : (∃ s, a4.state = some s ∧ changesetStateValid s = false) ∨
          (∃ s, a4.reviewState = some s ∧ changesetReviewStateValid s = false) ∨
          (∃ s, a4.checkState = some s ∧ changesetCheckStateValid s = false)) :
    listChangesetOptsFromArgs none = ({}, true, none) ∧
    (listChangesetOptsFromArgs (some a2)).2.1 = false ∧
    ((listChangesetOptsFromArgs (some a3)).2.1 = true ∧
      (listChangesetOptsFromArgs (some a3)).2.2 = none) ∧
    ((listChangesetOptsFromArgs (some a4)).2.1 = false ∧
      ∃ e, (listChangesetOptsFromArgs (some a4)).2.2 = some e) := by
  refine ⟨rfl, ?_, ?_, ?_⟩
  · have hB : ∀ opts, (listChangesetOptsReview a2 opts true).2.1 = false := by
      intro opts
      rcases h2 with h2 | h2
      · exact optsReview_some_unsafe a2 opts true h2
      · cases hrs : a2.reviewState with
        | none =>
          unfold listChangesetOptsReview
          rw [hrs]
          exact optsCheck_some_unsafe a2 opts true h2
        | some r => exact optsReview_some_unsafe a2 opts true (by rw [hrs]; simp)
    simp only [listChangesetOptsFromArgs]
    cases a2.state with
    | none => exact hB _
    | some s =>
      dsimp only
      split
      · rfl
      · exact hB _
  · simp only [listChangesetOptsFromArgs]
    rcases h3s with h3s | ⟨s, hs, hv⟩
    · rw [h3s]
      rw [optsReview_none a3 _ true h3r h3c]
      exact ⟨rfl, rfl⟩
    · rw [hs]
      dsimp only
      rw [hv, optsReview_none a3 _ true h3r h3c]
      simp
  · simp only [listChangesetOptsFromArgs]
    rcases h4 with ⟨s, hs, hv⟩ | h4
    · rw [hs]
      dsimp only
      rw [hv]
      exact ⟨by simp, "changeset state not valid", by simp⟩
    · cases a4.state with
      | none => exact optsReview_err_any a4 _ true h4
      | some s =>
        dsimp only
        split
        · exact ⟨rfl, _, rfl⟩
        · exact optsReview_err_any a4 _ true h4

/-- Witness for C1 at concrete filter arguments. -/
theorem c1_listChangesetOpts_filter_safety_witness :
    listChangesetOptsFromArgs none = ({}, true, none) ∧
    (listChangesetOptsFromArgs
      (some ⟨none, none, some "APPROVED", none⟩)).2.1 = false ∧
    ((listChangesetOptsFromArgs (some ⟨some 5, some "OPEN", none, none⟩)).2.1 = true ∧
      (listChangesetOptsFromArgs (some ⟨some 5, some "OPEN", none, none⟩)).2.2 = none) ∧
    ((listChangesetOptsFromArgs (some ⟨none, some "BOGUS", none, none⟩)).2.1 = false ∧
      ∃ e, (listChangesetOptsFromArgs (some ⟨none, some "BOGUS", none, none⟩)).2.2 = some e) :=
  c1_listChangesetOpts_filter_safety
    ⟨none, none, some "APPROVED", none⟩
    ⟨some 5, some "OPEN", none, none⟩
    ⟨none, some "BOGUS", none, none⟩
    (by simp) rfl rfl
    (by right; exact ⟨"OPEN", rfl, by decide⟩)
    (by left; exact ⟨"BOGUS", rfl, by decide⟩)

/-! ### Lemmas about diff-stat aggregation -/

lemma sumDiffStats_filter (accessible : List Int) (ps : List Patch) :
    ∀ t, sumDiffStats accessible ps t =
      sumDiffStats accessible (ps.filter fun p => p.repoID ∈ accessible) t := by
  induction ps with
  | nil => intro t; rfl
  | cons p ps ih =>
    intro t
    by_cases h : p.repoID ∈ accessible
    · rw [List.filter_cons_of_pos (by simpa using h)]
      simp only [sumDiffStats, if_pos h]
      cases p.diffStat with
      | none => rfl
      | some s => exact ih _
    · rw [List.filter_cons_of_neg (by simpa using h)]
      simp only [sumDiffStats, if_neg h]
      exact ih _

lemma sumDiffStats_ok (accessible : List Int) (ps : List Patch) :
    ∀ t, (∀ p ∈ ps, p.repoID ∈ accessible → p.diffStat ≠ none) →
      sumDiffStats accessible ps t =
        .ok (((ps.filter fun p => p.repoID ∈ accessible).filterMap
          fun p => p.diffStat).foldl DiffStat.addStat t) := by
  induction ps with
  | nil => intro t _; rfl
  | cons p ps ih =>
    intro t h
    have hps : ∀ q ∈ ps, q.repoID ∈ accessible → q.diffStat ≠ none :=
      fun q hq => h q (List.mem_cons_of_mem _ hq)
    by_cases hm : p.repoID ∈ accessible
    · cases hd : p.diffStat with
      | none => exact absurd hd (h p (List.mem_cons_self _ _) hm)
      | some s =>
        rw [List.filter_cons_of_pos (by simpa using hm)]
        simp only [sumDiffStats, if_pos hm, hd, List.filterMap_cons_some hd,
          List.foldl_cons]
        exact ih _ hps
    · rw [List.filter_cons_of_neg (by simpa using hm)]
      simp only [sumDiffStats, if_neg hm]
      exact ih _ hps

lemma sumDiffStats_err (accessible : List Int) (ps : List Patch) :
    ∀ t p₀, ps.find? (fun p => decide (p.repoID ∈ accessible) && p.diffStat.isNone) =
        some p₀ →
      sumDiffStats accessible ps t =
        .error ("patch " ++ toString p₀.id ++ " has no diff stat") := by
  induction ps with
  | nil => intro t p₀ hf; exact absurd hf (by simp)
  | cons p ps ih =>
    intro t p₀ hf
    by_cases hm : p.repoID ∈ accessible
    · cases hd : p.diffStat with
      | none =>
        have hp : p₀ = p := by
          rw [List.find?_cons_of_pos _ (by simp [hm, hd])] at hf
          exact (Option.some_inj.mp hf).symm
        subst hp
        simp only [sumDiffStats, if_pos hm, hd]
      | some s =>
        rw [List.find?_cons_of_neg _ (by simp [hm, hd])] at hf
        simp only [sumDiffStats, if_pos hm, hd]
        exact ih _ _ hf
    · rw [List.find?_cons_of_neg _ (by simp [hm])] at hf
      simp only [sumDiffStats, if_neg hm]
      exact ih _ _ hf

/-- C2: `patchSetDiffStat` sums the diff-stat contributions only of
patches whose repository is caller-visible — patches with invisible
repositories are skipped and contribute nothing — and it returns an
error, not a zero-defaulted total, as soon as any visible patch lacks a
precomputed diff stat. -/
theorem c2_patchSetDiffStat_visibility
    (patches patches2 : List Patch) (accessible : List Int) (p₀ : Patch)
    (hok : ∀ p ∈ patches, p.repoID ∈ accessible → p.diffStat ≠ none)
    (hmiss : patches2.find?
        (fun p => decide (p.repoID ∈ accessible) && p.diffStat.isNone) = some p₀) :
    patchSetDiffStat patches accessible =
      patchSetDiffStat (patches.filter fun p => p.repoID ∈ accessible) accessible ∧
    patchSetDiffStat patches accessible = .ok (visibleSum patches accessible) ∧
    patchSetDiffStat patches2 accessible =
      .error ("patch " ++ toString p₀.id ++ " has no diff stat") := by
  refine ⟨sumDiffStats_filter accessible patches _, ?_, ?_⟩
  · exact sumDiffStats_ok accessible patches _ hok
  · exact sumDiffStats_err accessible patches2 _ _ hmiss

/-- Witness for C2: an invisible patch without a diff stat is skipped
while the visible patches are summed; a visible patch without a diff
stat raises the data-integrity error. -/
theorem c2_patchSetDiffStat_visibility_witness :
    patchSetDiffStat [⟨1, 10, some ⟨1, 2, 3⟩⟩, ⟨2, 99, none⟩] [10] =
      patchSetDiffStat
        (([⟨1, 10, some ⟨1, 2, 3⟩⟩, ⟨2, 99, none⟩] : List Patch).filter
          fun p => p.repoID ∈ [10]) [10] ∧
    patchSetDiffStat [⟨1, 10, some ⟨1, 2, 3⟩⟩, ⟨2, 99, none⟩] [10] =
      .ok (visibleSum [⟨1, 10, some ⟨1, 2, 3⟩⟩, ⟨2, 99, none⟩] [10]) ∧
    patchSetDiffStat [⟨2, 99, none⟩, ⟨3, 10, none⟩] [10] =
      .error ("patch " ++ toString (3 : Int) ++ " has no diff stat") :=
  c2_patchSetDiffStat_visibility
    [⟨1, 10, some ⟨1, 2, 3⟩⟩, ⟨2, 99, none⟩]
    [⟨2, 99, none⟩, ⟨3, 10, none⟩]
    [10] ⟨3, 10, none⟩ (by decide) (by decide)

/-! ### Memoization of the pagination computation -/

lemma runCalls_some (stream : DiffStream) (r : ComputeResult) :
    ∀ as : List FileDiffsConnectionArgs,
      runCalls stream (some r) as = (as.map fun _ => r, 0) := by
  intro as
  induction as with
  | nil => rfl
  | cons a as ih => simp [runCalls, memoStep, ih]

/-- C4: the closure returned by `fileDiffConnectionCompute` performs the
parse-and-paginate computation exactly once on the first invocation;
every later invocation, with any arguments, returns exactly the stored
file-diff list, cursor, hasNextPage flag, and error (including a stored
parse error), without recomputing. -/
theorem c4_fileDiffConnectionCompute_memoized (stream : DiffStream)
    (a1 : FileDiffsConnectionArgs) (rest : List FileDiffsConnectionArgs) :
    runCalls stream none (a1 :: rest) =
      (computeOnce stream a1 :: rest.map (fun _ => computeOnce stream a1), 1) := by
  simp [runCalls, memoStep, runCalls_some]

/-! ### Changeset sync and lookup dispatch -/

/-- C8: `SyncChangeset` rejects an id that unmarshals to zero with the
`ErrIDIsZero` validation error before any enqueue or store access,
rejects a malformed id token with the unmarshalling error, and returns a
non-nil response only when enqueueing succeeded — it never silently
no-ops. -/
theorem c8_syncChangeset_validation
    (arg0 argM arg : GraphQLID) (enq : Int → Except String Unit)
    (h0 : unmarshalChangesetID arg0 = .ok 0)
    (hM : ∃ e, unmarshalChangesetID argM = .error e) :
    syncChangeset arg0 enq = (.error errIDIsZero, []) ∧
    (∃ e, unmarshalChangesetID argM = .error e ∧ syncChangeset argM enq = (.error e, [])) ∧
    (∀ u, (syncChangeset arg enq).1 = .ok u →
      ∃ cid, unmarshalChangesetID arg = .ok cid ∧ cid ≠ 0 ∧ enq cid = .ok ()) := by
  refine ⟨?_, ?_, ?_⟩
  · unfold syncChangeset
    rw [h0]
    rfl
  · obtain ⟨e, he⟩ := hM
    refine ⟨e, he, ?_⟩
    unfold syncChangeset
    rw [he]
  · intro u hu
    unfold syncChangeset at hu
    cases harg : unmarshalChangesetID arg with
    | error e => rw [harg] at hu; exact absurd hu (by simp)
    | ok cid =>
      rw [harg] at hu
      dsimp only at hu
      by_cases hz : cid = 0
      · rw [if_pos hz] at hu
        exact absurd hu (by simp [errIDIsZero])
      · rw [if_neg hz] at hu
        refine ⟨cid, rfl, hz, ?_⟩
        cases henq : enq cid with
        | error e => rw [henq] at hu; dsimp only at hu; exact absurd hu (by simp)
        | ok v => rfl

/-- Witness for C8 at concrete ids and a concrete queue. -/
theorem c8_syncChangeset_validation_witness :
    syncChangeset (.wellFormed "Changeset" 0) (fun _ => .ok ()) = (.error errIDIsZero, []) ∧
    (∃ e, unmarshalChangesetID (.malformed "zz") = .error e ∧
      syncChangeset (.malformed "zz") (fun _ => .ok ()) = (.error e, [])) ∧
    (∀ u, (syncChangeset (.wellFormed "Changeset" 3) (fun _ => .ok ())).1 = .ok u →
      ∃ cid, unmarshalChangesetID (.wellFormed "Changeset" 3) = .ok cid ∧ cid ≠ 0 ∧
        (fun _ => (.ok () : Except String Unit)) cid = .ok ()) :=
  c8_syncChangeset_validation (.wellFormed "Changeset" 0) (.malformed "zz")
    (.wellFormed "Changeset" 3) (fun _ => .ok ()) rfl
    ⟨"malformed id zz", rfl⟩

/-- C9: for an authorized reader, `ChangesetByID` yields an empty result
(nil resolver, nil error) for a zero id and for an id with no store
results, and yields the hidden variant — carrying only the common
identity, timestamp and state fields — when the changeset exists but its
repository is not visible to the viewer. -/
theorem c9_changesetByID_dispatch
    (arg0 argN argH : GraphQLID) (cidN cidH : Int) (c : Changeset)
    (cs : Int → GetChangesetResult) (rp : Int → GetRepoResult)
    (h0 : unmarshalChangesetID arg0 = .ok 0)
    (hN : unmarshalChangesetID argN = .ok cidN) (hN0 : cidN ≠ 0)
    (hNs : cs cidN = .noResults)
    (hH : unmarshalChangesetID argH = .ok cidH) (hH0 : cidH ≠ 0)
    (hHs : cs cidH = .found c) (hHr : rp c.repoID = .notFound) :
    changesetByID true arg0 cs rp = .ok none ∧
    changesetByID true argN cs rp = .ok none ∧
    changesetByID true argH cs rp =
      .ok (some (.hidden c.id c.createdAt c.updatedAt c.state)) := by
  refine ⟨?_, ?_, ?_⟩
  · unfold changesetByID
    rw [h0]
    rfl
  · unfold changesetByID
    rw [hN]
    simp [if_neg hN0, hNs]
  · unfold changesetByID
    rw [hH]
    simp [if_neg hH0, hHs, hHr]

/-- Witness for C9 at a concrete store and repository oracle. -/
theorem c9_changesetByID_dispatch_witness :
    changesetByID true (.wellFormed "Changeset" 0)
      (fun i => if i = 7 then .found ⟨7, 42, 1, 2, "OPEN", "t", "b"⟩ else .noResults)
      (fun _ => .notFound) = .ok none ∧
    changesetByID true (.wellFormed "Changeset" 5)
      (fun i => if i = 7 then .found ⟨7, 42, 1, 2, "OPEN", "t", "b"⟩ else .noResults)
      (fun _ => .notFound) = .ok none ∧
    changesetByID true (.wellFormed "Changeset" 7)
      (fun i => if i = 7 then .found ⟨7, 42, 1, 2, "OPEN", "t", "b"⟩ else .noResults)
      (fun _ => .notFound) = .ok (some (.hidden 7 1 2 "OPEN")) :=
  c9_changesetByID_dispatch (.wellFormed "Changeset" 0) (.wellFormed "Changeset" 5)
    (.wellFormed "Changeset" 7) 5 7 ⟨7, 42, 1, 2, "OPEN", "t", "b"⟩
    (fun i => if i = 7 then .found ⟨7, 42, 1, 2, "OPEN", "t", "b"⟩ else .noResults)
    (fun _ => .notFound)
    rfl rfl (by decide) rfl rfl (by decide) rfl rfl

/-! ### Patch application semantics -/

lemma startsWithDash_ne_empty {line : String} (h : startsWithDash line = true) :
    line ≠ "" := by
  intro he
  subst he
  exact absurd h (by decide)

lemma startsWithPlus_ne_empty {line : String} (h : startsWithPlus line = true) :
    line ≠ "" := by
  intro he
  subst he
  exact absurd h (by decide)

lemma startsWithPlus_not_dash {line : String} (h : startsWithPlus line = true) :
    startsWithDash line = false := by
  unfold startsWithPlus at h
  unfold startsWithDash
  rw [of_decide_eq_true h]
  decide

lemma splitLinesAux_ne_nil (cs : List Char) : ∀ acc, splitLinesAux cs acc ≠ [] := by
  induction cs with
  | nil => intro acc; simp [splitLinesAux]
  | cons c rest ih =>
    intro acc
    unfold splitLinesAux
    split
    · simp
    · exact ih _

lemma splitLines_length_pos (s : String) : 0 < (splitLines s).length := by
  have h := splitLinesAux_ne_nil s.toList []
  unfold splitLines
  cases hL : splitLinesAux s.toList [] with
  | nil => exact absurd hL h
  | cons a as => simp

/-- C5: within a hunk body, a `-` line advances the original-line cursor
without emitting output, a `+` line emits its content without advancing
the cursor, an empty line is skipped, and any other line emits the
original line at the cursor and advances it; the hole before a hunk is
copied verbatim and moves the cursor to the hunk start; after the last
hunk the remaining original lines are appended verbatim; and on the
two-hunk example over the twelve-line base the result is lines 1-2, the
replacement, lines 4-10, the second hunk's output, and nothing further. -/
theorem c5_applyPatch_semantics
    (cl rest acc : List String) (lastLine : Int)
    (lineM lineP lineC : String) (l : String)
    (hM : startsWithDash lineM = true)
    (hP : startsWithPlus lineP = true)
    (hC : lineC ≠ "") (hC2 : startsWithDash lineC = false)
    (hC3 : startsWithPlus lineC = false)
    (hIdx : goIndex cl (lastLine - 1) = some l)
    (os : Int) (body : String) (hs : List Hunk) (hole : List String)
    (hos : os ≠ 0) (hos2 : os ≠ lastLine)
    (hslice : goSlice cl (lastLine - 1) (os - 1) = some hole)
    (content : String) (fd : FileDiff) (accF : List String) (lastF : Int)
    (tailF : List String)
    (hrun : processHunks (splitLines content) fd.hunks 1 [] = some (accF, lastF))
    (hlen : ((splitLines content).length : Int) ≠ lastF)
    (htail : goSlice (splitLines content) (lastF - 1)
      ((splitLines content).length : Int) = some tailF) :
    processHunkLines cl (lineM :: rest) lastLine acc =
      processHunkLines cl rest (lastLine + 1) acc ∧
    processHunkLines cl (lineP :: rest) lastLine acc =
      processHunkLines cl rest lastLine (acc ++ [dropOne lineP]) ∧
    processHunkLines cl (lineC :: rest) lastLine acc =
      processHunkLines cl rest (lastLine + 1) (acc ++ [l]) ∧
    processHunkLines cl ("" :: rest) lastLine acc =
      processHunkLines cl rest lastLine acc ∧
    ((lastLine + (hole.length : Int) = os) ∧
      processHunks cl (⟨os, body⟩ :: hs) lastLine acc =
        (match processHunkLines cl (splitLines body) os (acc ++ hole) with
         | none => none
         | some t => processHunks cl hs t.2 t.1)) ∧
    applyPatch content fd = some (joinNl (accF ++ tailF)) ∧
    applyPatch base12 exampleDiff = some expected12 := by
  have hcur : lastLine + (hole.length : Int) = os := by
    unfold goSlice at hslice
    split at hslice
    · rename_i hcond
      have hhole := Option.some_inj.mp hslice
      have hlen2 : hole.length = (os - 1 - (lastLine - 1)).toNat := by
        rw [← hhole, List.length_take, List.length_drop]
        omega
      omega
    · exact absurd hslice (by simp)
  refine ⟨?_, ?_, ?_, ?_, ⟨hcur, ?_⟩, ?_, by decide⟩
  · have h1 : ¬ (lineM = "") := startsWithDash_ne_empty hM
    simp only [processHunkLines, if_neg h1, hM, if_pos]
  · have h1 : ¬ (lineP = "") := startsWithPlus_ne_empty hP
    have h2 := startsWithPlus_not_dash hP
    simp only [processHunkLines, if_neg h1, h2, hP, Bool.false_eq_true, if_false, if_pos]
  · simp only [processHunkLines, if_neg hC, hC2, hC3, Bool.false_eq_true, if_false, hIdx]
  · simp [processHunkLines]
  · simp only [processHunks, if_pos (And.intro hos hos2), hslice]
    rw [hcur]
  · simp only [applyPatch]
    rw [hrun]
    dsimp only
    rw [if_pos (And.intro (by exact_mod_cast splitLines_length_pos content) hlen)]
    rw [htail]

/-- Witness for C5 at concrete lines, hunks and contents. -/
theorem c5_applyPatch_semantics_witness :
    (processHunkLines ["a", "b"] ["-a", "+z"] 1 [] =
        processHunkLines ["a", "b"] ["+z"] 2 [] ∧
      True) ∧
    applyPatch base12 exampleDiff = some expected12 := by
  have h := c5_applyPatch_semantics ["a", "b"] ["+z"] [] 1 "-a" "+z" "b" "a"
    (by decide) (by decide) (by decide) (by decide) (by decide) (by decide)
    2 "" [] ["a"] (by decide) (by decide) (by decide)
    base12 exampleDiff
    ["1", "2", "three", "4", "5", "6", "7", "8", "9", "10", "11", "12", "appended"]
    13 [] (by decide) (by decide) (by decide)
  exact ⟨⟨h.1, trivial⟩, h.2.2.2.2.2.2⟩

/-! ### The read loop: windows, hasNextPage, and read counts -/

lemma readLoop_spec (term : Option String) (records : List FileDiff) :
    ∀ (m : Nat) (acc : List FileDiff), 1 ≤ m →
      readLoop records term ((acc.length + m : Nat) : Int) acc =
        (acc ++ records.take m, decide (m < records.length),
         if m < records.length then none else term,
         min records.length m + 1) := by
  induction records with
  | nil =>
    intro m acc hm
    unfold readLoop
    cases term <;> simp
  | cons r rest ih =>
    intro m acc hm
    unfold readLoop
    by_cases hone : m = 1
    · subst hone
      rw [if_pos (by simp)]
      cases rest with
      | nil => cases term <;> simp
      | cons r2 rest2 =>
        cases term <;> simp [Nat.min_def]
    · have hm2 : 2 ≤ m := by omega
      rw [if_neg (by simp only [List.length_append, List.length_singleton]; omega)]
      dsimp only
      have hrec := ih (m - 1) (acc ++ [r]) (by omega)
      have harg : ((acc ++ [r]).length + (m - 1) : Nat) = acc.length + m := by
        simp only [List.length_append, List.length_singleton]
        omega
      rw [harg] at hrec
      rw [hrec]
      simp only [Prod.mk.injEq]
      refine ⟨?_, ?_, ?_, ?_⟩
      · rw [List.append_assoc]
        congr 1
        conv_rhs => rw [show m = (m - 1) + 1 from by omega]
        rw [List.take_succ_cons]
        rfl
      · exact decide_eq_decide.mpr (by simp; omega)
      · refine if_congr (by simp; omega) rfl rfl
      · simp only [List.length_cons]
        omega

lemma readLoop_nonpos (term : Option String) (records : List FileDiff) :
    ∀ (t : Int) (acc : List FileDiff), t ≤ 0 →
      readLoop records term t acc = (acc ++ records, false, term, records.length + 1) := by
  induction records with
  | nil =>
    intro t acc ht
    unfold readLoop
    cases term <;> simp
  | cons r rest ih =>
    intro t acc ht
    unfold readLoop
    rw [if_neg (by simp only [List.length_append, List.length_singleton]; omega)]
    dsimp only
    rw [ih t (acc ++ [r]) ht]
    simp

/-- C6 counterexample: at effective offset 0 with limit 0 the loop does
not stop after `c+n = 0` records — it reads and returns the entire
stream, and `hasMore` is `false` even though a `(c+n+1)`-th record
exists. -/
theorem c6_counterexample :
    (computeCore ⟨[⟨"a", "b", []⟩], none⟩ 0).2.1 = false ∧
    0 + 0 + 1 ≤ ([⟨"a", "b", []⟩] : List FileDiff).length ∧
    (computeCore ⟨[⟨"a", "b", []⟩], none⟩ 0).1 ≠
      List.take (0 + 0) [(⟨"a", "b", []⟩ : FileDiff)] := by
  refine ⟨rfl, by decide, by decide⟩

/-- C6 (amended): whenever the effective total `c+n` is positive (and
within the int32 range, as any request value is), the computation
materializes exactly the first `c+n` records, reads at most one further
record, sets `hasMore` exactly when a `(c+n+1)`-th record exists, and
when fewer than `c+n` records exist it reads all of them with `hasMore`
false; when `c+n = 0` the entire stream is read instead. -/
theorem c6_window_read_bound (records : List FileDiff) (term : Option String)
    (c n : Nat) (h1 : 0 < c + n) (h2 : ((c + n : Nat) : Int) ≤ 2 ^ 31 - 1) :
    mkRes ⟨records, term⟩ ⟨some (n : Int), none⟩ (c : Int) =
      ⟨records.take (c + n), (c : Int), decide (c + n < records.length),
        if c + n < records.length then none else term⟩ ∧
    (computeCore ⟨records, term⟩ ((c + n : Nat) : Int)).1 = records.take (c + n) ∧
    ((computeCore ⟨records, term⟩ ((c + n : Nat) : Int)).2.1 = true ↔
      c + n + 1 ≤ records.length) ∧
    (computeCore ⟨records, term⟩ ((c + n : Nat) : Int)).2.2.2 ≤ c + n + 1 ∧
    (records.length < c + n →
      (computeCore ⟨records, term⟩ ((c + n : Nat) : Int)).1 = records ∧
      (computeCore ⟨records, term⟩ ((c + n : Nat) : Int)).2.1 = false) := by
  have hcore : computeCore ⟨records, term⟩ ((c + n : Nat) : Int) =
      (records.take (c + n), decide (c + n < records.length),
       if c + n < records.length then none else term,
       min records.length (c + n) + 1) := by
    have h := readLoop_spec term records (c + n) [] h1
    simpa [computeCore] using h
  refine ⟨?_, ?_, ?_, ?_, ?_⟩
  · unfold mkRes
    have hx : (0 : Int) ≤ (c : Int) + ((n : Nat) : Int) + 2 ^ 31 := by positivity
    have hw : wrap32 ((c : Int) + (some ((n : Nat) : Int)).getD 0) =
        ((c + n : Nat) : Int) := by
      unfold wrap32
      rw [Option.getD_some,
        Int.emod_eq_of_lt hx (by push_cast at h2 ⊢; omega)]
      push_cast
      omega
    rw [hw]
    dsimp only
    rw [hcore]
  · rw [hcore]
  · rw [hcore]
    simp only [decide_eq_true_eq]
    omega
  · rw [hcore]
    dsimp only
    omega
  · intro hlt
    rw [hcore]
    exact ⟨List.take_of_length_le (by omega), by simp; omega⟩

/-- Witness for C6 at a two-record stream with offset 0 and limit 1. -/
theorem c6_window_read_bound_witness :
    (mkRes ⟨[⟨"a", "b", []⟩, ⟨"c", "d", []⟩], none⟩ ⟨some ((1 : Nat) : Int), none⟩
        ((0 : Nat) : Int) =
      ⟨([⟨"a", "b", []⟩, ⟨"c", "d", []⟩] : List FileDiff).take (0 + 1), ((0 : Nat) : Int),
        decide (0 + 1 < ([⟨"a", "b", []⟩, ⟨"c", "d", []⟩] : List FileDiff).length),
        if 0 + 1 < ([⟨"a", "b", []⟩, ⟨"c", "d", []⟩] : List FileDiff).length then none
        else none⟩) ∧
    (computeCore ⟨[⟨"a", "b", []⟩, ⟨"c", "d", []⟩], none⟩ ((0 + 1 : Nat) : Int)).2.2.2 ≤
      0 + 1 + 1 :=
  have h := c6_window_read_bound [⟨"a", "b", []⟩, ⟨"c", "d", []⟩] none 0 1
    (by decide) (by decide)
  ⟨h.1, h.2.2.2.1⟩

/-! ### Page concatenation -/

lemma mkRes_pos (records : List FileDiff) (term : Option String) (c N : Nat)
    (h1 : 0 < c + N) (h2 : ((c + N : Nat) : Int) ≤ 2 ^ 31 - 1) :
    mkRes ⟨records, term⟩ ⟨some (N : Int), none⟩ (c : Int) =
      ⟨records.take (c + N), (c : Int), decide (c + N < records.length),
        if c + N < records.length then none else term⟩ := by
  unfold mkRes
  have hx : (0 : Int) ≤ (c : Int) + ((N : Nat) : Int) + 2 ^ 31 := by positivity
  have hw : wrap32 ((c : Int) + (some ((N : Nat) : Int)).getD 0) =
      ((c + N : Nat) : Int) := by
    unfold wrap32
    rw [Option.getD_some, Int.emod_eq_of_lt hx (by push_cast at h2 ⊢; omega)]
    push_cast
    omega
  rw [hw]
  dsimp only
  have hcore : computeCore ⟨records, term⟩ ((c + N : Nat) : Int) =
      (records.take (c + N), decide (c + N < records.length),
       if c + N < records.length then none else term,
       min records.length (c + N) + 1) := by
    have h := readLoop_spec term records (c + N) [] h1
    simpa [computeCore] using h
  rw [hcore]

lemma mkRes_neg (records : List FileDiff) (term : Option String) (c N : Nat)
    (h1 : 2 ^ 31 ≤ (c : Int) + (N : Int))
    (h2 : (c : Int) ≤ 2 ^ 31 - 1) (h3 : (N : Int) ≤ 2 ^ 31 - 1) :
    mkRes ⟨records, term⟩ ⟨some (N : Int), none⟩ (c : Int) =
      ⟨records, (c : Int), false, term⟩ := by
  unfold mkRes
  have hw : wrap32 ((c : Int) + (some ((N : Nat) : Int)).getD 0) ≤ 0 := by
    unfold wrap32
    rw [Option.getD_some]
    omega
  have hcore := readLoop_nonpos term records
    (wrap32 ((c : Int) + (some ((N : Nat) : Int)).getD 0)) [] hw
  dsimp only
  rw [show computeCore ⟨records, term⟩ (wrap32 ((c : Int) + (some ((N : Nat) : Int)).getD 0)) =
      ([] ++ records, false, term, records.length + 1) from hcore]
  simp

lemma window_append (l : List FileDiff) (c N : Nat) :
    (l.take (c + N)).drop c ++ l.drop (c + N) = l.drop c := by
  rw [← List.take_drop, List.drop_take_append_drop]

lemma collectPages_eq_drop (records : List FileDiff) (N : Nat) (hN : 0 < N)
    (hN31 : (N : Int) ≤ 2 ^ 31 - 1) :
    ∀ (fuel c : Nat), c ≤ records.length → (c : Int) ≤ 2 ^ 31 - 1 →
      records.length ≤ c + fuel * N →
      collectPages ⟨records, none⟩ N c fuel = records.drop c := by
  intro fuel
  induction fuel with
  | zero =>
    intro c hc _ hfuel
    have hcl : c = records.length := by omega
    subst hcl
    rw [List.drop_length]
    rfl
  | succ fuel ih =>
    intro c hc hc31 hfuel
    unfold collectPages
    by_cases hrange : ((c + N : Nat) : Int) ≤ 2 ^ 31 - 1
    · rw [mkRes_pos records none c N (by omega) hrange]
      dsimp only
      by_cases hnext : c + N < records.length
      · rw [if_pos (by simpa using hnext)]
        rw [ih (c + N) (by omega) hrange (by rw [Nat.succ_mul] at hfuel; omega)]
        exact window_append records c N
      · rw [if_neg (by simpa using hnext)]
        rw [List.take_of_length_le (by omega)]
    · rw [mkRes_neg records none c N (by push_cast at hrange ⊢; omega) hc31 hN31]
      dsimp only
      rw [if_neg (by simp)]

/-- C7: for any patch whose diff blob parses cleanly and any page size
`N > 0` (with `N` an int32 value, as `first` is), paging from cursor 0 in
steps of `N` while `hasNextPage` holds and concatenating the served
windows yields exactly the file-diff sequence of a single request with no
limit. -/
theorem c7_pagination_concatenation (records : List FileDiff) (N : Nat)
    (hN : 0 < N) (hN31 : (N : Int) ≤ 2 ^ 31 - 1) :
    collectPages ⟨records, none⟩ N 0 (records.length + 1) =
      (mkRes ⟨records, none⟩ ⟨none, none⟩ 0).fileDiffs := by
  have hall : (mkRes ⟨records, none⟩ ⟨none, none⟩ 0).fileDiffs = records := by
    unfold mkRes
    have hw : wrap32 ((0 : Int) + (none : Option Int).getD 0) = 0 := by decide
    rw [hw]
    dsimp only
    have hcore := readLoop_nonpos none records 0 [] (by omega)
    rw [show computeCore ⟨records, none⟩ 0 = ([] ++ records, false, none, records.length + 1)
      from hcore]
    simp
  rw [hall]
  have h := collectPages_eq_drop records N hN hN31 (records.length + 1) 0
    (by omega) (by omega) (by push_cast; nlinarith)
  simpa using h

/-- Witness for C7 at a three-record stream with page size 2. -/
theorem c7_pagination_concatenation_witness :
    collectPages ⟨[⟨"a", "b", []⟩, ⟨"c", "d", []⟩, ⟨"e", "f", []⟩], none⟩ 2 0
        ([(⟨"a", "b", []⟩ : FileDiff), ⟨"c", "d", []⟩, ⟨"e", "f", []⟩].length + 1) =
      (mkRes ⟨[⟨"a", "b", []⟩, ⟨"c", "d", []⟩, ⟨"e", "f", []⟩], none⟩
        ⟨none, none⟩ 0).fileDiffs :=
  c7_pagination_concatenation [⟨"a", "b", []⟩, ⟨"c", "d", []⟩, ⟨"e", "f", []⟩] 2
    (by decide) (by decide)

/-! ### Cursor parsing policy -/

/-- C3 counterexample: a malformed cursor string is not clamped to zero.
On a two-record stream with `first = 1`, the cursor `"x"` (which does not
parse) yields the empty file-diff list with a nil error, while the
clamped page one (cursor `"0"`) yields the first record — so the
malformed-cursor request is answered with an empty result, not page one. -/
theorem c3_counterexample :
    computeOnce ⟨[⟨"a", "b", []⟩, ⟨"c", "d", []⟩], none⟩ ⟨some 1, some "x"⟩ =
      ⟨[], 0, false, none⟩ ∧
    computeOnce ⟨[⟨"a", "b", []⟩, ⟨"c", "d", []⟩], none⟩ ⟨some 1, some "0"⟩ =
      ⟨[⟨"a", "b", []⟩], 0, true, none⟩ ∧
    parseGoInt32 "x" = none ∧
    ([] : List FileDiff) ≠ [⟨"a", "b", []⟩] :=
  ⟨by decide, by decide, by decide, by decide⟩

/-- C3 (amended): a cursor string that parses to a negative integer is
clamped to offset zero and the request is served as page one; a cursor
string that does not parse as an integer is not clamped — the `once.Do`
body returns early with the parse error assigned to a shadowing local,
so the request is answered with an empty file-diff list, cursor zero,
no next page and a nil error. -/
theorem c3_cursor_clamping (stream : DiffStream) (f : Option Int)
    (s s2 : String) (k : Int)
    (hs : parseGoInt32 s = some k) (hk : k < 0)
    (hs2 : parseGoInt32 s2 = none) :
    computeOnce stream ⟨f, some s⟩ = computeOnce stream ⟨f, none⟩ ∧
    computeOnce stream ⟨f, some s2⟩ = ⟨[], 0, false, none⟩ := by
  constructor
  · unfold computeOnce
    dsimp only
    rw [hs]
    dsimp only
    rw [if_pos hk]
    rfl
  · unfold computeOnce
    dsimp only
    rw [hs2]

/-- Witness for C3 (amended) at the cursor strings `"-5"` and `"x"`. -/
theorem c3_cursor_clamping_witness :
    computeOnce ⟨[⟨"a", "b", []⟩], none⟩ ⟨some 1, some "-5"⟩ =
      computeOnce ⟨[⟨"a", "b", []⟩], none⟩ ⟨some 1, none⟩ ∧
    computeOnce ⟨[⟨"a", "b", []⟩], none⟩ ⟨some 1, some "x"⟩ = ⟨[], 0, false, none⟩ :=
  c3_cursor_clamping ⟨[⟨"a", "b", []⟩], none⟩ (some 1) "-5" "x" (-5)
    (by decide) (by decide) (by decide)

/-! ### Totality of patch application under well-formed hunks -/

lemma startsWithDash_not_plus {line : String} (h : startsWithDash line = true) :
    startsWithPlus line = false := by
  unfold startsWithDash at h
  unfold startsWithPlus
  rw [of_decide_eq_true h]
  decide

lemma processHunkLines_total (cl : List String) :
    ∀ (lines : List String) (lastLine : Int) (acc : List String),
      1 ≤ lastLine →
      lastLine + (advancesCount lines : Int) ≤ (cl.length : Int) + 1 →
      ∃ acc2, processHunkLines cl lines lastLine acc =
        some (acc2, lastLine + advancesCount lines) := by
  intro lines
  induction lines with
  | nil =>
    intro lastLine acc h1 h2
    exact ⟨acc, by simp [processHunkLines, advancesCount]⟩
  | cons line rest ih =>
    intro lastLine acc h1 h2
    by_cases he : line = ""
    · subst he
      have hcount : advancesCount ("" :: rest) = advancesCount rest := by
        simp [advancesCount, List.filter_cons, advancesLine]
      rw [hcount] at h2 ⊢
      simp only [processHunkLines, if_pos rfl]
      exact ih lastLine acc h1 h2
    · by_cases hd : startsWithDash line = true
      · have hcount : advancesCount (line :: rest) = advancesCount rest + 1 := by
          simp [advancesCount, List.filter_cons, advancesLine, he,
            startsWithDash_not_plus hd]
        rw [hcount] at h2 ⊢
        simp only [processHunkLines, if_neg he, hd, if_pos]
        obtain ⟨acc2, hh⟩ := ih (lastLine + 1) acc (by omega)
          (by push_cast at h2 ⊢; omega)
        exact ⟨acc2, by rw [hh]; congr 2; omega⟩
      · have hd2 : startsWithDash line = false := by simpa using hd
        by_cases hp : startsWithPlus line = true
        · have hcount : advancesCount (line :: rest) = advancesCount rest := by
            simp [advancesCount, List.filter_cons, advancesLine, hp]
          rw [hcount] at h2 ⊢
          simp only [processHunkLines, if_neg he, hd2, Bool.false_eq_true, if_false,
            hp, if_pos]
          exact ih lastLine (acc ++ [dropOne line]) h1 h2
        · have hp2 : startsWithPlus line = false := by simpa using hp
          have hcount : advancesCount (line :: rest) = advancesCount rest + 1 := by
            simp [advancesCount, List.filter_cons, advancesLine, he, hp2]
          rw [hcount] at h2 ⊢
          have hidx : (lastLine - 1).toNat < cl.length := by
            push_cast at h2
            omega
          have hsome : goIndex cl (lastLine - 1) =
              some (cl.get ⟨(lastLine - 1).toNat, hidx⟩) := by
            unfold goIndex
            rw [if_pos (by omega : (0 : Int) ≤ lastLine - 1)]
            exact List.get?_eq_get hidx
          simp only [processHunkLines, if_neg he, hd2, Bool.false_eq_true, if_false,
            hp2, hsome]
          obtain ⟨acc2, hh⟩ := ih (lastLine + 1)
            (acc ++ [cl.get ⟨(lastLine - 1).toNat, hidx⟩]) (by omega)
            (by push_cast at h2 ⊢; omega)
          exact ⟨acc2, by rw [hh]; congr 2; omega⟩

lemma processHunks_total (cl : List String) :
    ∀ (hs : List Hunk) (lastLine : Int) (acc : List String),
      1 ≤ lastLine → lastLine ≤ (cl.length : Int) + 1 →
      hunksWF cl.length lastLine hs = true →
      ∃ acc2 last2, processHunks cl hs lastLine acc = some (acc2, last2) ∧
        1 ≤ last2 ∧ last2 ≤ (cl.length : Int) + 1 := by
  intro hs
  induction hs with
  | nil => exact fun lastLine acc h1 h2 _ => ⟨acc, lastLine, rfl, h1, h2⟩
  | cons h rest ih =>
    intro lastLine acc h1 h2 hwf
    have hwf2 : 1 ≤ h.origStartLine ∧ lastLine ≤ h.origStartLine ∧
        h.origStartLine + (touched h.body : Int) ≤ (cl.length : Int) + 1 ∧
        hunksWF cl.length (h.origStartLine + (touched h.body : Int)) rest = true := by
      have := hwf
      unfold hunksWF at this
      simpa using this
    obtain ⟨hw1, hw2, hw3, hw4⟩ := hwf2
    unfold processHunks
    by_cases heq : h.origStartLine = lastLine
    · rw [if_neg (by simp [heq])]
      dsimp only
      obtain ⟨acc2, hinner⟩ := processHunkLines_total cl (splitLines h.body)
        lastLine acc h1 (by unfold touched at hw3; omega)
      rw [hinner]
      dsimp only
      have hrec := ih (lastLine + (advancesCount (splitLines h.body) : Int)) acc2
        (by omega) (by unfold touched at hw3; omega)
        (by rw [show lastLine + (advancesCount (splitLines h.body) : Int) =
              h.origStartLine + (touched h.body : Int) from by rw [heq]; rfl]
            exact hw4)
      exact hrec
    · rw [if_pos ⟨by omega, heq⟩]
      have hsl : goSlice cl (lastLine - 1) (h.origStartLine - 1) =
          some ((cl.drop (lastLine - 1).toNat).take
            (h.origStartLine - 1 - (lastLine - 1)).toNat) := by
        unfold goSlice
        rw [if_pos ⟨by omega, by omega, by omega⟩]
      rw [hsl]
      dsimp only
      have hlenhole : (((cl.drop (lastLine - 1).toNat).take
          (h.origStartLine - 1 - (lastLine - 1)).toNat).length : Int) =
          h.origStartLine - lastLine := by
        rw [List.length_take, List.length_drop]
        push_cast
        omega
      obtain ⟨acc2, hinner⟩ := processHunkLines_total cl (splitLines h.body)
        (lastLine + ((cl.drop (lastLine - 1).toNat).take
          (h.origStartLine - 1 - (lastLine - 1)).toNat).length) _
        (by omega) (by unfold touched at hw3; omega)
      rw [hinner]
      dsimp only
      have hrec := ih (lastLine + ((cl.drop (lastLine - 1).toNat).take
          (h.origStartLine - 1 - (lastLine - 1)).toNat).length +
          (advancesCount (splitLines h.body) : Int)) acc2
        (by omega) (by unfold touched at hw3; omega)
        (by rw [show lastLine + ((cl.drop (lastLine - 1).toNat).take
              (h.origStartLine - 1 - (lastLine - 1)).toNat).length +
              (advancesCount (splitLines h.body) : Int) =
              h.origStartLine + (touched h.body : Int) from by
            unfold touched
            omega]
            exact hw4)
      exact hrec

/-- C10: `applyPatch` is not total — a hunk whose original-line span
reaches past the end of the base content makes an index or slice access
go out of bounds (the embedding returns `none`) — but under the
precondition that hunks are in ascending original-line order and every
original line a hunk touches exists in the base, every access stays in
bounds and a result is produced. -/
theorem c10_applyPatch_bounds (content : String) (fd : FileDiff)
    (hwf : hunksWF (splitLines content).length 1 fd.hunks = true) :
    applyPatch "a" ⟨"f", "g", [⟨5, "x"⟩]⟩ = none ∧
    ∃ out, applyPatch content fd = some out := by
  refine ⟨by decide, ?_⟩
  obtain ⟨acc2, last2, hrun, hl1, hl2⟩ := processHunks_total (splitLines content)
    fd.hunks 1 []
    (by omega)
    (by have := splitLines_length_pos content; push_cast; omega)
    hwf
  simp only [applyPatch]
  rw [hrun]
  dsimp only
  by_cases hfin : ((splitLines content).length : Int) = last2
  · rw [if_neg (fun hab => hab.2 hfin)]
    exact ⟨_, rfl⟩
  · rw [if_pos ⟨by have := splitLines_length_pos content; push_cast; omega, hfin⟩]
    have hsl : goSlice (splitLines content) (last2 - 1)
        ((splitLines content).length : Int) =
        some (((splitLines content).drop (last2 - 1).toNat).take
          (((splitLines content).length : Int) - (last2 - 1)).toNat) := by
      unfold goSlice
      rw [if_pos ⟨by omega, by omega, by omega⟩]
    rw [hsl]
    exact ⟨_, rfl⟩

/-- Witness for C10: a well-formed single-hunk diff over a three-line
base is applied totally. -/
theorem c10_applyPatch_bounds_witness :
    hunksWF (splitLines "a\nb\nc").length 1 [⟨2, "-b\n+B"⟩] = true ∧
    (applyPatch "a" ⟨"f", "g", [⟨5, "x"⟩]⟩ = none ∧
      ∃ out, applyPatch "a\nb\nc" ⟨"x", "y", [⟨2, "-b\n+B"⟩]⟩ = some out) :=
  ⟨by decide, c10_applyPatch_bounds "a\nb\nc" ⟨"x", "y", [⟨2, "-b\n+B"⟩]⟩ (by decide)⟩

end Campaigns
